import Mathlib

/-!
Shallow embedding of `sistema_correo.py` (EntregaFinal_SistemaCorreo).

Python's mutable objects are modelled as immutable Lean values with explicit
state threading.  Python exceptions are modelled with `Except ErrorSist`.
Environment-dependent data (`uuid.uuid4()` for message ids) is modelled by an
explicit `id` argument supplied at construction; `datetime.now()` timestamps
are not observed by any operation modelled here and are omitted.
-/

namespace SistemaCorreoPy

/-- Exceptions raised by the Python code, with their payloads. -/
inductive ErrorSist where
  /-- `ValueError` raised by `obtener_por_ruta`, carrying the missing segment
      and the full route from the message
      `No existe la carpeta ... en la ruta ...`. -/
  | noExisteCarpeta (segmento : String) (ruta : String)
  /-- `IndexError` raised by `mover_mensaje`. -/
  | indiceFueraDeRango
  /-- `TypeError` raised by the Python runtime when `heapq` compares two
      `(int, Mensaje)` tuples with equal first components: `Mensaje` defines
      no `__lt__`. -/
  | typeErrorMensajeLt
  /-- Any other `ValueError(msg)`. -/
  | valorError (msg : String)
  deriving DecidableEq, Repr

/-- `Mensaje`: the read-only attributes set by `Mensaje.__init__`.
The `id` field models Python object identity / the generated uuid
(`self._id`); two references are the same object iff their ids agree. -/
structure Mensaje where
  id : Nat
  remitente : String
  destinatario : String
  asunto : String
  cuerpo : String
  prioridad : String
  leido : Bool
  deriving DecidableEq, Repr

instance : Inhabited Mensaje := ⟨⟨0, "", "", "", "", "Media", false⟩⟩

/-- `Mensaje.__init__`: rejects an empty `destinatario` with `ValueError`,
silently coerces a priority outside `{Alta, Media, Baja}` to `"Media"`,
and initialises `leido` to `False`. -/
def nuevoMensaje (id : Nat) (remitente destinatario asunto cuerpo : String)
    (prioridad : String) : Except ErrorSist Mensaje :=
  if destinatario = "" then
    .error (.valorError "El mensaje debe tener destinatario.")
  else
    let prioridadVal :=
      if prioridad = "Alta" ∨ prioridad = "Media" ∨ prioridad = "Baja" then
        prioridad
      else "Media"
    .ok ⟨id, remitente, destinatario, asunto, cuerpo, prioridadVal, false⟩

/-! ## Python string helpers (`str.lower`, substring `in`, `strip`, `split`) -/

/-- Python `str.lower()` restricted to ASCII, which is all the program uses. -/
def pyLower (s : String) : String := ⟨s.data.map Char.toLower⟩

/-- Whether `n` is a prefix of `h` (helper for the substring test). -/
def hayPrefijo : List Char → List Char → Bool
  | [], _ => true
  | _ :: _, [] => false
  | a :: as, b :: bs => a = b && hayPrefijo as bs

/-- Python `n in h` on strings: `n` occurs as a contiguous substring of `h`. -/
def contiene (n : List Char) : List Char → Bool
  | [] => hayPrefijo n []
  | c :: t => hayPrefijo n (c :: t) || contiene n t

/-- Python `s.strip("/")`: drop `/` characters from both ends. -/
def stripSlashes (s : String) : String :=
  ⟨((s.data.dropWhile (· = '/')).reverse.dropWhile (· = '/')).reverse⟩

/-- Python `s.split("/")` (always returns at least one piece). -/
def splitSlash : List Char → List String
  | [] => [""]
  | c :: rest =>
    if c = '/' then "" :: splitSlash rest
    else
      match splitSlash rest with
      | [] => [⟨[c]⟩]
      | p :: ps => (⟨c :: p.data⟩ : String) :: ps

/-! ## `ColaPrioridades`: faithful model of `heapq` on `(int, Mensaje)` pairs -/

/-- Python `<` on `(int, Mensaje)` tuples.  Integers compare normally; on a
tie the runtime falls back to comparing the `Mensaje` objects, which succeeds
(with `False`) only when they are the very same object, and otherwise raises
`TypeError` because `Mensaje` defines no ordering. -/
def tupLt (a b : Nat × Mensaje) : Except ErrorSist Bool :=
  if a.1 ≠ b.1 then .ok (decide (a.1 < b.1))
  else if a.2 = b.2 then .ok false
  else .error .typeErrorMensajeLt

/-- `heapq._siftdown(heap, startpos, pos)` with `newitem = heap[pos]` already
read off (the Python loop reads it once before iterating).  The structural
`fuel` argument is always called with `fuel = pos`; since each iteration
replaces `pos` by `(pos - 1) / 2 ≤ pos - 1`, when the fuel reaches `0` the
position is `0` as well and the `0` case coincides with the loop exit. -/
def siftdownLoop : Nat → List (Nat × Mensaje) → Nat → Nat → Nat × Mensaje →
    Except ErrorSist (List (Nat × Mensaje))
  | 0, heap, _, pos, newitem => pure (heap.set pos newitem)
  | fuel + 1, heap, startpos, pos, newitem =>
    if startpos < pos then
      let parentpos := (pos - 1) / 2
      let parent := heap.getD parentpos default
      do
        if (← tupLt newitem parent) then
          siftdownLoop fuel (heap.set pos parent) startpos parentpos newitem
        else
          pure (heap.set pos newitem)
    else
      pure (heap.set pos newitem)

/-- `heapq.heappush`: append, then sift the new item up from the last slot. -/
def heappush (heap : List (Nat × Mensaje)) (item : Nat × Mensaje) :
    Except ErrorSist (List (Nat × Mensaje)) :=
  siftdownLoop heap.length (heap ++ [item]) 0 heap.length item

/-- `heapq._siftup(heap, pos)` with `newitem = heap[pos]` already read off.
The structural `fuel` argument is always called with `fuel > heap.length`;
since the position strictly increases while staying below `heap.length`
(which `List.set` preserves), the `0` case is unreachable. -/
def siftupLoop : Nat → List (Nat × Mensaje) → Nat → Nat → Nat × Mensaje →
    Except ErrorSist (List (Nat × Mensaje))
  | 0, heap, startpos, pos, newitem => siftdownLoop pos (heap.set pos newitem) startpos pos newitem
  | fuel + 1, heap, startpos, pos, newitem =>
    let endpos := heap.length
    let childpos := 2 * pos + 1
    if childpos < endpos then
      let rightpos := childpos + 1
      if rightpos < endpos then do
        let lt ← tupLt (heap.getD childpos default) (heap.getD rightpos default)
        if lt then
          siftupLoop fuel (heap.set pos (heap.getD childpos default)) startpos childpos newitem
        else
          siftupLoop fuel (heap.set pos (heap.getD rightpos default)) startpos rightpos newitem
      else do
        siftupLoop fuel (heap.set pos (heap.getD childpos default)) startpos childpos newitem
    else
      siftdownLoop pos (heap.set pos newitem) startpos pos newitem

/-- `ColaPrioridades`: a `heapq`-based priority queue of messages. -/
structure ColaPrioridades where
  heap : List (Nat × Mensaje)
  deriving DecidableEq, Repr

/-- `ColaPrioridades._valor.get(prioridad, 2)`. -/
def valorPrioridad (p : String) : Nat :=
  if p = "Alta" then 1 else if p = "Media" then 2 else if p = "Baja" then 3 else 2

/-- Fresh empty queue (`ColaPrioridades.__init__`). -/
def colaNueva : ColaPrioridades := ⟨[]⟩

/-- `ColaPrioridades.agregar`. -/
def ColaPrioridades.agregar (c : ColaPrioridades) (m : Mensaje) :
    Except ErrorSist ColaPrioridades := do
  pure ⟨← heappush c.heap (valorPrioridad m.prioridad, m)⟩

/-- `ColaPrioridades.esta_vacia`. -/
def ColaPrioridades.esta_vacia (c : ColaPrioridades) : Bool := c.heap.isEmpty

/-- `ColaPrioridades.procesar`: `heapq.heappop` returning the popped message
(or `none` on an empty queue) together with the remaining queue. -/
def ColaPrioridades.procesar (c : ColaPrioridades) :
    Except ErrorSist (Option (Mensaje × ColaPrioridades)) :=
  match h : c.heap with
  | [] => .ok none
  | x :: xs =>
    let lastelt := (x :: xs).getLast (by simp)
    let rest := (x :: xs).dropLast
    match rest with
    | [] => .ok (some (lastelt.2, ⟨[]⟩))
    | r :: rs => do
      let returnitem := r
      let heap1 := (r :: rs).set 0 lastelt
      let heap2 ← siftupLoop (heap1.length + 1) heap1 0 0 lastelt
      pure (some (returnitem.2, ⟨heap2⟩))

/-- `ServidorCorreo.procesar_mensajes_prioritarios`, drained into the list of
reported messages.  The fuel equals the heap size: every successful pop
removes exactly one element, so the fuel never runs out. -/
def drenarCola : Nat → ColaPrioridades → Except ErrorSist (List Mensaje)
  | 0, _ => .ok []
  | fuel + 1, c => do
    match ← c.procesar with
    | none => pure []
    | some (m, c') => do
      pure (m :: (← drenarCola fuel c'))

/-! ## `Carpeta`: node of the folder tree.

The `padre` back-reference of the Python class is not represented: it is
never read by any modelled operation.  Subfolders keep the insertion order of
the Python `dict`. -/

inductive Carpeta where
  | mk (nombre : String) (mensajes : List Mensaje) (subcarpetas : List (String × Carpeta))
  deriving Repr

/-- Folder name. -/
def Carpeta.nombre : Carpeta → String
  | .mk n _ _ => n

/-- The internal ordered message sequence (`self._mensajes`).  The Python
accessor `mensajes()` returns a copy of this list; the aliasing content of
that copy is modelled separately for the snapshot claim. -/
def Carpeta.mensajes : Carpeta → List Mensaje
  | .mk _ ms _ => ms

/-- The child dictionary as an insertion-ordered association list. -/
def Carpeta.subcarpetas : Carpeta → List (String × Carpeta)
  | .mk _ _ subs => subs

/-- First-match association lookup (Python `dict` access; keys are unique in
every dictionary the program builds). -/
def buscarAsoc {α : Type} : List (String × α) → String → Option α
  | [], _ => none
  | (k, v) :: rest, clave => if k = clave then some v else buscarAsoc rest clave

/-- `Carpeta.agregar_mensaje`. -/
def Carpeta.agregar_mensaje : Carpeta → Mensaje → Carpeta
  | .mk n ms subs, m => .mk n (ms ++ [m]) subs

/-- `list.remove` on the message list: drop the first occurrence (Python
compares with `==`, which is object identity for `Mensaje`). -/
def quitarPrimero : List Mensaje → Mensaje → List Mensaje
  | [], _ => []
  | x :: xs, m => if x = m then xs else x :: quitarPrimero xs m

/-- `Carpeta.quitar_mensaje` (raises `ValueError` if absent, like
`list.remove`). -/
def Carpeta.quitar_mensaje (c : Carpeta) (m : Mensaje) : Except ErrorSist Carpeta :=
  if m ∈ c.mensajes then
    .ok (.mk c.nombre (quitarPrimero c.mensajes m) c.subcarpetas)
  else
    .error (.valorError "list.remove(x): x not in list")

/-- `Carpeta.obtener_por_indice`: the message at `idx` when
`0 <= idx < len`, else `None`. -/
def Carpeta.obtener_por_indice (c : Carpeta) (idx : Int) : Option Mensaje :=
  if h : 0 ≤ idx ∧ idx.toNat < c.mensajes.length then
    some (c.mensajes.get ⟨idx.toNat, h.2⟩)
  else
    none

/-- `Carpeta.obtener_subcarpeta`. -/
def Carpeta.obtener_subcarpeta (c : Carpeta) (nombre : String) : Option Carpeta :=
  buscarAsoc c.subcarpetas nombre

/-- `Carpeta.crear_subcarpeta`: fails on a duplicate name, otherwise links a
new empty child (returning the updated parent). -/
def Carpeta.crear_subcarpeta (c : Carpeta) (nombre : String) : Except ErrorSist Carpeta :=
  match buscarAsoc c.subcarpetas nombre with
  | some _ => .error (.valorError "La subcarpeta ya existe.")
  | none => .ok (.mk c.nombre c.mensajes (c.subcarpetas ++ [(nombre, .mk nombre [] [])]))

/-! ## `SistemaCorreo`: path resolution, recursive search, move -/

structure SistemaCorreo where
  carpeta_raiz : Carpeta

/-- `ruta.strip("/").split("/")`. -/
def partesDeRuta (ruta : String) : List String :=
  splitSlash (stripSlashes ruta).data

/-- The walking loop of `obtener_por_ruta`: descend child-by-child, raising
`ValueError` naming the first missing segment (and the whole route). -/
def caminarRuta (ruta : String) : Carpeta → List String → Except ErrorSist Carpeta
  | actual, [] => .ok actual
  | actual, p :: ps =>
    match actual.obtener_subcarpeta p with
    | none => .error (.noExisteCarpeta p ruta)
    | some sub => caminarRuta ruta sub ps

/-- `SistemaCorreo.obtener_por_ruta`. -/
def SistemaCorreo.obtener_por_ruta (sist : SistemaCorreo) (ruta : String) :
    Except ErrorSist Carpeta :=
  caminarRuta ruta sist.carpeta_raiz (partesDeRuta ruta)

/-- Whether a message matches the search text (already lowercased):
`texto in m.asunto.lower() or texto in m.remitente.lower()`. -/
def coincideBusqueda (textoLower : String) (m : Mensaje) : Bool :=
  contiene textoLower.data (pyLower m.asunto).data ||
    contiene textoLower.data (pyLower m.remitente).data

mutual

/-- The inner `_buscar` of `buscar_mensajes_recursivo`: this folder's matches
in insertion order, then the subfolders' results in insertion order. -/
def buscarEnCarpeta (textoLower : String) : Carpeta → List (Carpeta × Mensaje)
  | .mk n ms subs =>
    ((ms.filter (coincideBusqueda textoLower)).map
      (fun m => (Carpeta.mk n ms subs, m))) ++ buscarEnSubcarpetas textoLower subs

/-- `_buscar` folded over a child list. -/
def buscarEnSubcarpetas (textoLower : String) :
    List (String × Carpeta) → List (Carpeta × Mensaje)
  | [] => []
  | (_, c) :: rest =>
    buscarEnCarpeta textoLower c ++ buscarEnSubcarpetas textoLower rest

end

/-- `SistemaCorreo.buscar_mensajes_recursivo` (lowercases the text once,
then searches the whole tree from the root). -/
def SistemaCorreo.buscar_mensajes_recursivo (sist : SistemaCorreo) (texto : String) :
    List (Carpeta × Mensaje) :=
  buscarEnCarpeta (pyLower texto) sist.carpeta_raiz

/-- `SistemaCorreo.mover_mensaje`: look up by index, remove from the source,
append to the destination.  The two folders are threaded as values; the
Python method mutates them through aliases. -/
def SistemaCorreo.mover_mensaje (origen : Carpeta) (indice : Int) (destino : Carpeta) :
    Except ErrorSist (Carpeta × Carpeta) :=
  match origen.obtener_por_indice indice with
  | none => .error .indiceFueraDeRango
  | some mensaje => do
    let origen' ← origen.quitar_mensaje mensaje
    pure (origen', destino.agregar_mensaje mensaje)

/-! ## `Usuario` -/

structure Usuario where
  nombre : String
  email : String
  raiz : Carpeta
  deriving Repr

/-- `Usuario.__init__`: a root named `Root` with the three pre-created
children, in the insertion order of the three `crear_subcarpeta` calls. -/
def usuarioNuevo (nombre email : String) : Usuario :=
  ⟨nombre, email,
    .mk "Root" []
      [("Entrada", .mk "Entrada" [] []),
       ("Enviados", .mk "Enviados" [] []),
       ("Prioritarios", .mk "Prioritarios" [] [])]⟩

/-- The message list of the named top-level folder (empty if absent):
the observation used to state the delivery claims. -/
def Usuario.mensajesEn (u : Usuario) (nombre : String) : List Mensaje :=
  match buscarAsoc u.raiz.subcarpetas nombre with
  | none => []
  | some c => c.mensajes

/-- `obtener_carpeta(nombre).agregar_mensaje(m)` as one tree update: append
`m` to the named top-level folder, creating the folder first if absent. -/
def agregarEnSubLista : List (String × Carpeta) → String → Mensaje → List (String × Carpeta)
  | [], nombre, m => [(nombre, .mk nombre [m] [])]
  | (n, c) :: rest, nombre, m =>
    if n = nombre then (n, c.agregar_mensaje m) :: rest
    else (n, c) :: agregarEnSubLista rest nombre m

/-- Deliver `m` into the user's top-level folder `nombre`
(`obtener_carpeta` + `agregar_mensaje`). -/
def Usuario.entregarEn (u : Usuario) (nombre : String) (m : Mensaje) : Usuario :=
  ⟨u.nombre, u.email, .mk u.raiz.nombre u.raiz.mensajes (agregarEnSubLista u.raiz.subcarpetas nombre m)⟩

/-- `Usuario.redactar`: pure message construction stamped with this user's
email as sender (the uuid is modelled by the explicit `id`). -/
def Usuario.redactar (u : Usuario) (id : Nat)
    (destinatario asunto cuerpo prioridad : String) : Except ErrorSist Mensaje :=
  nuevoMensaje id u.email destinatario asunto cuerpo prioridad

/-! ## `ServidorCorreo` -/

structure ServidorCorreo where
  nombre : String
  usuarios : List (String × Usuario)
  filtros : List (String × String)
  cola : ColaPrioridades

/-- `ServidorCorreo.__init__` with its three seeded filters. -/
def servidorNuevo (nombre : String) : ServidorCorreo :=
  ⟨nombre, [],
    [("urgente", "Prioritarios"), ("oferta", "Promociones"), ("universidad", "Academicos")],
    colaNueva⟩

/-- `ServidorCorreo.registrar_usuario`. -/
def ServidorCorreo.registrar_usuario (srv : ServidorCorreo) (u : Usuario) :
    Except ErrorSist ServidorCorreo :=
  match buscarAsoc srv.usuarios u.email with
  | some _ => .error (.valorError "El email ya esta registrado.")
  | none => .ok { srv with usuarios := srv.usuarios ++ [(u.email, u)] }

/-- Python `dict` assignment on an association list: overwrite in place if the
key exists, else append. -/
def ponerAsoc {α : Type} : List (String × α) → String → α → List (String × α)
  | [], clave, v => [(clave, v)]
  | (k, x) :: rest, clave, v =>
    if k = clave then (k, v) :: rest else (k, x) :: ponerAsoc rest clave v

/-- `ServidorCorreo.agregar_filtro` (keyword lowercased). -/
def ServidorCorreo.agregar_filtro (srv : ServidorCorreo) (palabra carpeta : String) :
    ServidorCorreo :=
  { srv with filtros := ponerAsoc srv.filtros (pyLower palabra) carpeta }

/-- The folder name chosen by `_aplicar_filtros`: scan the filter table in
insertion order, stop at the first keyword occurring in the lowercased
`asunto + " " + cuerpo`, default `"Entrada"`. -/
def carpetaDestino (filtros : List (String × String)) (m : Mensaje) : String :=
  let texto := pyLower (m.asunto ++ " " ++ m.cuerpo)
  go filtros texto
where
  go : List (String × String) → String → String
    | [], _ => "Entrada"
    | (palabra, carpeta) :: rest, texto =>
      if contiene palabra.data texto.data then carpeta else go rest texto

/-- Replace the (unique) entry with the given key by applying `f` to it,
modelling in-place mutation of the stored `Usuario` object. -/
def actualizarUsuario : List (String × Usuario) → String → (Usuario → Usuario) →
    List (String × Usuario)
  | [], _, _ => []
  | (e, u) :: rest, email, f =>
    if e = email then (e, f u) :: rest else (e, u) :: actualizarUsuario rest email f

/-- `ServidorCorreo.enviar`.  Sequencing follows the source: Sent-folder copy
for a registered sender, then the priority-queue push, then filter-routed
delivery for a registered recipient (an unknown recipient is silently
skipped: the `ValueError` of `_obtener_usuario` is caught).  If the queue
push raises, the Python method leaves the Sent-folder mutation in place while
propagating the exception; the `Except` model only reports the exception. -/
def ServidorCorreo.enviar (srv : ServidorCorreo) (m : Mensaje) :
    Except ErrorSist ServidorCorreo := do
  let usuarios1 :=
    match buscarAsoc srv.usuarios m.remitente with
    | some _ => actualizarUsuario srv.usuarios m.remitente (fun u => u.entregarEn "Enviados" m)
    | none => srv.usuarios
  let cola' ← srv.cola.agregar m
  let usuarios2 :=
    match buscarAsoc usuarios1 m.destinatario with
    | some _ =>
      actualizarUsuario usuarios1 m.destinatario
        (fun u => u.entregarEn (carpetaDestino srv.filtros m) m)
    | none => usuarios1
  pure { srv with usuarios := usuarios2, cola := cola' }

/-- `ServidorCorreo.procesar_mensajes_prioritarios`: drain the queue fully,
returning the reported messages in pop order. -/
def ServidorCorreo.procesar_mensajes_prioritarios (srv : ServidorCorreo) :
    Except ErrorSist (List Mensaje × ServidorCorreo) := do
  pure (← drenarCola srv.cola.heap.length srv.cola, { srv with cola := colaNueva })

/-! ## `RedServidores` -/

structure RedServidores where
  servidores : List (String × ServidorCorreo)
  conexiones : List (String × List String)

/-- Fresh empty network. -/
def redNueva : RedServidores := ⟨[], []⟩

/-- `dict.setdefault(clave, [])`. -/
def setdefaultVacia (cx : List (String × List String)) (clave : String) :
    List (String × List String) :=
  match buscarAsoc cx clave with
  | some _ => cx
  | none => cx ++ [(clave, [])]

/-- `RedServidores.agregar_servidor`. -/
def RedServidores.agregar_servidor (red : RedServidores) (srv : ServidorCorreo) :
    RedServidores :=
  ⟨ponerAsoc red.servidores srv.nombre srv, setdefaultVacia red.conexiones srv.nombre⟩

/-- `self._conexiones.setdefault(a, []).append(b)`. -/
def agregarVecino (cx : List (String × List String)) (a b : String) :
    List (String × List String) :=
  match buscarAsoc cx a with
  | some _ => ponerAsoc cx a ((buscarAsoc cx a).getD [] ++ [b])
  | none => cx ++ [(a, [b])]

/-- `RedServidores.conectar`: add both directions. -/
def RedServidores.conectar (red : RedServidores) (a b : String) : RedServidores :=
  ⟨red.servidores, agregarVecino (agregarVecino red.conexiones a b) b a⟩

/-- `self._conexiones.get(actual, [])`. -/
def vecinos (cx : List (String × List String)) (x : String) : List String :=
  (buscarAsoc cx x).getD []

/-- The BFS loop of `RedServidores.bfs`, with explicit fuel.  `none` means
the fuel ran out (shown impossible for the fuel `bfs` supplies); `some r`
is the Python return value. -/
def bfsAux (cx : List (String × List String)) (destino : String) :
    Nat → List String → List (String × List String) → Option (Option (List String))
  | 0, _, _ => none
  | _ + 1, _, [] => some none
  | fuel + 1, visitados, (actual, camino) :: resto =>
    if actual = destino then some (some camino)
    else if actual ∈ visitados then bfsAux cx destino fuel visitados resto
    else
      let visitados' := actual :: visitados
      let nuevos := ((vecinos cx actual).filter (fun v => ¬ v ∈ visitados')).map
        (fun v => (v, camino ++ [v]))
      bfsAux cx destino fuel visitados' (resto ++ nuevos)

/-- Total number of adjacency-list entries: an upper bound (minus two) on the
number of BFS loop iterations, since every node is expanded at most once. -/
def totalAristas (cx : List (String × List String)) : Nat :=
  (cx.map (fun kv => kv.2.length)).sum

/-- `RedServidores.bfs`. -/
def RedServidores.bfs (red : RedServidores) (origen destino : String) :
    Option (List String) :=
  match bfsAux red.conexiones destino (totalAristas red.conexiones + 2) []
      [(origen, [origen])] with
  | some r => r
  | none => none

/-! ## Concrete fixtures used by the theorems -/

/-- A first high-priority message. -/
def msjAlta1 : Mensaje := ⟨1, "luis@a.com", "ana@b.com", "uno", "cuerpo uno", "Alta", false⟩

/-- A second, distinct high-priority message. -/
def msjAlta2 : Mensaje := ⟨2, "luis@a.com", "ana@b.com", "dos", "cuerpo dos", "Alta", false⟩

/-- A medium-priority message. -/
def msjMedia : Mensaje := ⟨3, "luis@a.com", "ana@b.com", "tres", "cuerpo tres", "Media", false⟩

/-- A low-priority message. -/
def msjBaja : Mensaje := ⟨4, "luis@a.com", "ana@b.com", "cuatro", "cuerpo cuatro", "Baja", false⟩

/-- A message used twice in one folder (the same Python object appended
twice, e.g. by two `enviar` calls with the same `Mensaje`). -/
def msjDup : Mensaje := ⟨7, "x@a.com", "y@a.com", "duplicado", "cuerpo", "Media", false⟩

/-! ## C1 -/

/-- C1: the claim says `procesar_mensajes_prioritarios` drains every sequence
of queued messages in non-decreasing priority ordinal, in particular
sequences holding two or more messages of equal priority.  The code cannot
even queue two distinct equal-priority messages: the second
`ColaPrioridades.agregar` makes `heapq.heappush` compare `(1, m2)` with
`(1, m1)`, which falls back to `Mensaje < Mensaje` and raises `TypeError`.
With pairwise distinct priorities (second conjunct) the drain does work and
reports Alta before Media before Baja, as the spec intends. -/
theorem c1_agregar_empate_typeerror :
    (do
      let s ← (servidorNuevo "Servidor_Local").enviar msjAlta1
      s.enviar msjAlta2) = Except.error ErrorSist.typeErrorMensajeLt ∧
    (do
      let s ← (servidorNuevo "Servidor_Local").enviar msjMedia
      let s ← s.enviar msjAlta1
      let s ← s.enviar msjBaja
      let r ← s.procesar_mensajes_prioritarios
      pure r.1) = Except.ok [msjAlta1, msjMedia, msjBaja] := by
  constructor <;> rfl

/-! ## C7 -/

/-- C7: `Mensaje` construction (and `Usuario.redactar`) fails exactly when
the recipient is empty; a priority outside `{Alta, Media, Baja}` is silently
coerced to `"Media"` (a valid one is stored unchanged), so composing with
priority `"Urgent"` succeeds and stores `"Media"`. -/
theorem c7_mensaje_validacion :
    (∀ (id : Nat) (remitente destinatario asunto cuerpo prioridad : String),
      (∃ m, nuevoMensaje id remitente destinatario asunto cuerpo prioridad = .ok m) ↔
        destinatario ≠ "") ∧
    (∀ (id : Nat) (remitente destinatario asunto cuerpo prioridad : String) (m : Mensaje),
      nuevoMensaje id remitente destinatario asunto cuerpo prioridad = .ok m →
      ¬ (prioridad = "Alta" ∨ prioridad = "Media" ∨ prioridad = "Baja") →
      m.prioridad = "Media") ∧
    (∀ (id : Nat) (remitente destinatario asunto cuerpo prioridad : String) (m : Mensaje),
      nuevoMensaje id remitente destinatario asunto cuerpo prioridad = .ok m →
      (prioridad = "Alta" ∨ prioridad = "Media" ∨ prioridad = "Baja") →
      m.prioridad = prioridad) ∧
    (∃ m, (usuarioNuevo "Luis" "luis@mail.com").redactar 7 "ana@mail.com"
        "Consulta" "Texto" "Urgent" = .ok m ∧ m.prioridad = "Media") := by
  refine ⟨?_, ?_, ?_, ?_⟩
  · intro id r d a c p
    constructor
    · rintro ⟨m, hm⟩ hd
      simp [nuevoMensaje, hd] at hm
    · intro hd
      exact ⟨⟨id, r, d, a, c,
        if p = "Alta" ∨ p = "Media" ∨ p = "Baja" then p else "Media", false⟩,
        by simp only [nuevoMensaje, if_neg hd]⟩
  · intro id r d a c p m hm hp
    by_cases hd : d = "" <;> simp [nuevoMensaje, hd, hp] at hm
    · simp [← hm]
  · intro id r d a c p m hm hp
    by_cases hd : d = "" <;> simp [nuevoMensaje, hd, hp] at hm
    · simp [← hm]
  · exact ⟨_, rfl, rfl⟩

/-- C7 witness: the general statements applied at concrete inputs. -/
theorem c7_mensaje_validacion_witness :
    (∃ m, nuevoMensaje 1 "luis@mail.com" "ana@mail.com" "a" "c" "Alta" = .ok m) ∧
    ({ id := 2, remitente := "r", destinatario := "d", asunto := "a", cuerpo := "c",
       prioridad := "Media", leido := false : Mensaje }).prioridad = "Media" := by
  constructor
  · exact (c7_mensaje_validacion.1 1 "luis@mail.com" "ana@mail.com" "a" "c" "Alta").mpr
      (by decide)
  · exact c7_mensaje_validacion.2.1 2 "r" "d" "a" "c" "Urgent" _ rfl (by decide)

/-! ## C3 -/

/-- `list.remove` drops the first copy, so when the message is unique its
removal is exactly `eraseIdx` at its position. -/
theorem quitarPrimero_eq_eraseIdx :
    ∀ (l : List Mensaje) (k : Nat) (m : Mensaje) (h : k < l.length),
      l.get ⟨k, h⟩ = m → l.count m = 1 → quitarPrimero l m = l.eraseIdx k
  | x :: xs, 0, m, _, hget, _ => by
    simp at hget
    simp [quitarPrimero, hget, List.eraseIdx]
  | x :: xs, k + 1, m, h, hget, hcount => by
    simp at hget
    have hk : k < xs.length := by simpa using h
    have hmem : m ∈ xs := hget ▸ xs.get_mem k hk
    have hx : x ≠ m := by
      intro hxm
      rw [List.count_cons] at hcount
      have h1 : xs.count m ≥ 1 := List.one_le_count_iff.mpr hmem
      simp [hxm] at hcount
      omega
    have hcount' : xs.count m = 1 := by
      rw [List.count_cons] at hcount
      simp [hx] at hcount
      omega
    simp only [quitarPrimero, if_neg hx, List.eraseIdx]
    rw [quitarPrimero_eq_eraseIdx xs k m hk hget hcount']

/-- Removing the only copy of a message leaves it absent. -/
theorem not_mem_quitarPrimero :
    ∀ (l : List Mensaje) (m : Mensaje), l.count m = 1 → m ∉ quitarPrimero l m
  | [], m, h => by simp [quitarPrimero]
  | x :: xs, m, h => by
    by_cases hx : x = m
    · subst hx
      rw [List.count_cons_self] at h
      have : xs.count x = 0 := by omega
      simpa [quitarPrimero] using List.count_eq_zero.mp this
    · rw [List.count_cons_of_ne (fun hmx => hx hmx.symm)] at h
      have ih := not_mem_quitarPrimero xs m h
      simp [quitarPrimero, hx]
      exact ⟨fun hmx => hx hmx.symm, ih⟩

/-- C3 counterexample: a folder can hold the same `Mensaje` object twice
(the Python code appends by reference).  Moving index `1` of such a folder
removes the *first* copy, so the message that was at position `1` is still
present in the source afterwards — the claim says it must be absent. -/
theorem c3_mover_contraejemplo :
    (Carpeta.mk "Origen" [msjDup, msjDup] []).obtener_por_indice 1 = some msjDup ∧
    SistemaCorreo.mover_mensaje (Carpeta.mk "Origen" [msjDup, msjDup] []) 1
        (Carpeta.mk "Destino" [] []) =
      .ok (Carpeta.mk "Origen" [msjDup] [], Carpeta.mk "Destino" [msjDup] []) ∧
    msjDup ∈ (Carpeta.mk "Origen" [msjDup] []).mensajes := by
  refine ⟨rfl, rfl, ?_⟩
  simp [Carpeta.mensajes]

/-- C3 (amended): with an out-of-range index `mover_mensaje` fails with the
`IndexError` and no folder changes; otherwise the *first* identical copy of
the message at position `i` is removed from the source and the same message
is appended at the end of the destination.  When that message occurs exactly
once in the source (the claim's scenario, restricted to its counterexample),
it is afterwards absent from the source and the later messages shift down by
one position (`eraseIdx`). -/
theorem c3_mover_mensaje_correcto (origen : Carpeta) (i : Int) (destino : Carpeta) :
    (origen.obtener_por_indice i = none →
      SistemaCorreo.mover_mensaje origen i destino = .error .indiceFueraDeRango) ∧
    (origen.obtener_por_indice i = none ↔
      ¬ (0 ≤ i ∧ i.toNat < origen.mensajes.length)) ∧
    (∀ m, origen.obtener_por_indice i = some m →
      SistemaCorreo.mover_mensaje origen i destino =
        .ok (Carpeta.mk origen.nombre (quitarPrimero origen.mensajes m) origen.subcarpetas,
             Carpeta.mk destino.nombre (destino.mensajes ++ [m]) destino.subcarpetas) ∧
      (origen.mensajes.count m = 1 →
        quitarPrimero origen.mensajes m = origen.mensajes.eraseIdx i.toNat ∧
        m ∉ quitarPrimero origen.mensajes m)) := by
  obtain ⟨dn, dms, dsubs⟩ := destino
  refine ⟨?_, ?_, ?_⟩
  · intro hnone
    simp [SistemaCorreo.mover_mensaje, hnone]
  · simp only [Carpeta.obtener_por_indice]
    split
    · rename_i h
      simp [h]
    · rename_i h
      simp [h]
  · intro m hm
    have hrange : 0 ≤ i ∧ i.toNat < origen.mensajes.length := by
      by_contra hc
      simp [Carpeta.obtener_por_indice, hc] at hm
    have hget : origen.mensajes.get ⟨i.toNat, hrange.2⟩ = m := by
      simp [Carpeta.obtener_por_indice, hrange] at hm
      exact hm
    have hmem : m ∈ origen.mensajes := hget ▸ origen.mensajes.get_mem i.toNat hrange.2
    constructor
    · obtain ⟨onb, oms, osubs⟩ := origen
      simp only [SistemaCorreo.mover_mensaje, hm, Carpeta.quitar_mensaje]
      rw [if_pos hmem]
      rfl
    · intro hcount
      exact ⟨quitarPrimero_eq_eraseIdx _ _ _ hrange.2 hget hcount,
        not_mem_quitarPrimero _ _ hcount⟩

/-- C3 witness: the amended theorem at concrete inputs (an in-range move of
a unique message, and an out-of-range index). -/
theorem c3_mover_mensaje_correcto_witness :
    SistemaCorreo.mover_mensaje (Carpeta.mk "S" [msjAlta1] []) 0 (Carpeta.mk "D" [] []) =
      .ok (Carpeta.mk "S" (quitarPrimero [msjAlta1] msjAlta1) [],
           Carpeta.mk "D" [msjAlta1] []) ∧
    SistemaCorreo.mover_mensaje (Carpeta.mk "S" [msjAlta1] []) 5 (Carpeta.mk "D" [] []) =
      .error .indiceFueraDeRango := by
  constructor
  · exact ((c3_mover_mensaje_correcto (Carpeta.mk "S" [msjAlta1] []) 0
      (Carpeta.mk "D" [] [])).2.2 msjAlta1 rfl).1
  · exact (c3_mover_mensaje_correcto (Carpeta.mk "S" [msjAlta1] []) 5
      (Carpeta.mk "D" [] [])).1 rfl

/-! ## C5 -/

mutual

/-- Depth-first preorder list of all folders of a tree (the folder itself,
then its subfolders' preorders in insertion order). -/
def preordenCarpeta : Carpeta → List Carpeta
  | .mk n ms subs => Carpeta.mk n ms subs :: preordenSubcarpetas subs

/-- Preorder over a child list. -/
def preordenSubcarpetas : List (String × Carpeta) → List Carpeta
  | [] => []
  | (_, c) :: rest => preordenCarpeta c ++ preordenSubcarpetas rest

end

/-- The search hits contributed by one folder: its matching messages in
insertion order, paired with the folder. -/
def resultadosEn (textoLower : String) (f : Carpeta) : List (Carpeta × Mensaje) :=
  (f.mensajes.filter (coincideBusqueda textoLower)).map (fun m => (f, m))

mutual

theorem buscarEnCarpeta_eq (textoLower : String) :
    (c : Carpeta) →
      buscarEnCarpeta textoLower c =
        (preordenCarpeta c).flatMap (resultadosEn textoLower)
  | .mk n ms subs => by
    rw [buscarEnCarpeta, preordenCarpeta, List.flatMap_cons,
      buscarEnSubcarpetas_eq textoLower subs]
    rfl

theorem buscarEnSubcarpetas_eq (textoLower : String) :
    (l : List (String × Carpeta)) →
      buscarEnSubcarpetas textoLower l =
        (preordenSubcarpetas l).flatMap (resultadosEn textoLower)
  | [] => by rw [buscarEnSubcarpetas, preordenSubcarpetas]; rfl
  | (p, c) :: rest => by
    rw [buscarEnSubcarpetas, preordenSubcarpetas, List.flatMap_append,
      buscarEnCarpeta_eq textoLower c, buscarEnSubcarpetas_eq textoLower rest]

end

/-- C5: `buscar_mensajes_recursivo` returns exactly the (folder, message)
pairs whose subject or sender contains the text case-insensitively, drawn
from every folder of the tree rooted at the system's root, ordered by
depth-first preorder (each folder's own messages in insertion order before
its subfolders' results). -/
theorem c5_buscar_mensajes_recursivo (sist : SistemaCorreo) (texto : String) :
    sist.buscar_mensajes_recursivo texto =
      (preordenCarpeta sist.carpeta_raiz).flatMap (resultadosEn (pyLower texto)) ∧
    ∀ f m, (f, m) ∈ sist.buscar_mensajes_recursivo texto ↔
      (f ∈ preordenCarpeta sist.carpeta_raiz ∧ m ∈ f.mensajes ∧
        coincideBusqueda (pyLower texto) m = true) := by
  have heq := buscarEnCarpeta_eq (pyLower texto) sist.carpeta_raiz
  refine ⟨heq, ?_⟩
  intro f m
  rw [SistemaCorreo.buscar_mensajes_recursivo, heq]
  simp only [List.mem_flatMap, resultadosEn, List.mem_map, List.mem_filter,
    Prod.mk.injEq]
  constructor
  · rintro ⟨g, hg, m', ⟨hm', hcm⟩, hgf, hmm⟩
    subst hgf
    subst hmm
    exact ⟨hg, hm', hcm⟩
  · rintro ⟨hf, hm, hc⟩
    exact ⟨f, hf, m, ⟨hm, hc⟩, rfl, rfl⟩

/-- The message of the networking demo, whose subject contains `urgente`. -/
def msjUrgente : Mensaje :=
  ⟨5, "luis@a.com", "ana@b.com", "Prueba red URGENTE", "Mensaje que viaja por la red",
    "Alta", false⟩

/-- C5 witness: the characterisation applied to a one-folder tree and a
mixed-case search text. -/
theorem c5_buscar_mensajes_recursivo_witness :
    (Carpeta.mk "Root" [msjUrgente] [], msjUrgente) ∈
      (SistemaCorreo.mk (Carpeta.mk "Root" [msjUrgente] [])).buscar_mensajes_recursivo
        "urgente" := by
  refine ((c5_buscar_mensajes_recursivo (SistemaCorreo.mk
    (Carpeta.mk "Root" [msjUrgente] [])) "urgente").2 _ _).mpr ⟨?_, ?_, ?_⟩
  · rw [preordenCarpeta, preordenSubcarpetas]
    exact List.mem_singleton.mpr rfl
  · simp [Carpeta.mensajes]
  · rfl

/-! ## C6 and C10 -/

/-- Declarative walk: `Desciende c partes d` holds when following the child
named by each segment in turn leads from `c` to `d`. -/
inductive Desciende : Carpeta → List String → Carpeta → Prop where
  | nil (c : Carpeta) : Desciende c [] c
  | cons {c sub d : Carpeta} {p : String} {ps : List String} :
      c.obtener_subcarpeta p = some sub → Desciende sub ps d →
      Desciende c (p :: ps) d

theorem caminarRuta_ok_iff (ruta : String) :
    ∀ (partes : List String) (c0 c : Carpeta),
      caminarRuta ruta c0 partes = .ok c ↔ Desciende c0 partes c
  | [], c0, c => by
    rw [caminarRuta]
    constructor
    · intro h
      cases h
      exact .nil c0
    · intro h
      cases h
      rfl
  | p :: ps, c0, c => by
    rw [caminarRuta]
    constructor
    · intro h
      split at h
      · cases h
      · rename_i sub hsub
        exact .cons hsub ((caminarRuta_ok_iff ruta ps sub c).mp h)
    · intro h
      cases h with
      | cons hsub hrest =>
        rw [hsub]
        exact (caminarRuta_ok_iff ruta ps _ c).mpr hrest

theorem caminarRuta_error_iff (ruta : String) :
    ∀ (partes : List String) (c0 : Carpeta) (e : ErrorSist),
      caminarRuta ruta c0 partes = .error e ↔
        ∃ pre p rest c', partes = pre ++ p :: rest ∧ Desciende c0 pre c' ∧
          c'.obtener_subcarpeta p = none ∧ e = .noExisteCarpeta p ruta
  | [], c0, e => by
    rw [caminarRuta]
    constructor
    · intro h
      cases h
    · rintro ⟨pre, p, rest, c', habs, -⟩
      exact absurd habs (List.append_ne_nil_of_right_ne_nil pre (by simp)).symm
  | q :: qs, c0, e => by
    rw [caminarRuta]
    constructor
    · intro h
      split at h
      · cases h
        exact ⟨[], q, qs, c0, rfl, .nil c0, by assumption, rfl⟩
      · rename_i sub hsub
        obtain ⟨pre, p, rest, c', hsplit, hdesc, hmiss, he⟩ :=
          (caminarRuta_error_iff ruta qs sub e).mp h
        exact ⟨q :: pre, p, rest, c', by rw [hsplit]; rfl, .cons hsub hdesc, hmiss, he⟩
    · rintro ⟨pre, p, rest, c', hsplit, hdesc, hmiss, he⟩
      cases pre with
      | nil =>
        simp only [List.nil_append, List.cons.injEq] at hsplit
        obtain ⟨hq, hqs⟩ := hsplit
        subst hq
        cases hdesc
        rw [hmiss, he]
      | cons q' pre' =>
        simp only [List.cons_append, List.cons.injEq] at hsplit
        obtain ⟨hq, hqs⟩ := hsplit
        subst hq
        cases hdesc with
        | cons hsub hdesc' =>
          rw [hsub]
          exact (caminarRuta_error_iff ruta qs _ e).mpr
            ⟨pre', p, rest, c', hqs, hdesc', hmiss, he⟩

/-- The folder tree of a fresh user, used by the concrete instances. -/
def sistemaDemo : SistemaCorreo := ⟨(usuarioNuevo "Luis" "luis@mail.com").raiz⟩

/-- C6: `obtener_por_ruta` strips the slashes, splits on `/` and walks
child-by-child from the root; the `ok` results are exactly the walks that
reach their target, and the `error` results name exactly the first missing
segment (together with the full route).  On a fresh user, `"Entrada"`
resolves to the (empty) Inbox folder and `"NoExiste"` fails naming
`"NoExiste"`.  The function returns without modifying any folder: the model
threads no updated tree. -/
theorem c6_obtener_por_ruta (sist : SistemaCorreo) (ruta : String) :
    (∀ c, sist.obtener_por_ruta ruta = .ok c ↔
      Desciende sist.carpeta_raiz (partesDeRuta ruta) c) ∧
    (∀ e, sist.obtener_por_ruta ruta = .error e ↔
      ∃ pre p rest c', partesDeRuta ruta = pre ++ p :: rest ∧
        Desciende sist.carpeta_raiz pre c' ∧ c'.obtener_subcarpeta p = none ∧
        e = .noExisteCarpeta p ruta) ∧
    sistemaDemo.obtener_por_ruta "Entrada" = .ok (Carpeta.mk "Entrada" [] []) ∧
    sistemaDemo.obtener_por_ruta "NoExiste" =
      .error (.noExisteCarpeta "NoExiste" "NoExiste") := by
  refine ⟨fun c => ?_, fun e => ?_, rfl, rfl⟩
  · exact caminarRuta_ok_iff ruta (partesDeRuta ruta) sist.carpeta_raiz c
  · exact caminarRuta_error_iff ruta (partesDeRuta ruta) sist.carpeta_raiz e

/-- C6 witness: both characterisations applied at concrete routes of the
fresh-user tree. -/
theorem c6_obtener_por_ruta_witness :
    Desciende sistemaDemo.carpeta_raiz (partesDeRuta "Entrada")
      (Carpeta.mk "Entrada" [] []) ∧
    ∃ pre p rest c', partesDeRuta "NoExiste" = pre ++ p :: rest ∧
      Desciende sistemaDemo.carpeta_raiz pre c' ∧ c'.obtener_subcarpeta p = none ∧
      ErrorSist.noExisteCarpeta "NoExiste" "NoExiste" = .noExisteCarpeta p "NoExiste" := by
  constructor
  · exact ((c6_obtener_por_ruta sistemaDemo "Entrada").1 _).mp rfl
  · exact ((c6_obtener_por_ruta sistemaDemo "NoExiste").2.1 _).mp rfl

theorem buscarAsoc_sizeOf {α : Type} [SizeOf α] :
    ∀ (l : List (String × α)) (clave : String) (v : α),
      buscarAsoc l clave = some v → sizeOf v < sizeOf l
  | [], _, _ => by
    intro h
    simp [buscarAsoc] at h
  | (k, x) :: rest, clave, v => by
    rw [buscarAsoc]
    split
    · intro h
      cases h
      simp only [List.cons.sizeOf_spec, Prod.mk.sizeOf_spec]
      omega
    · intro h
      have := buscarAsoc_sizeOf rest clave v h
      simp only [List.cons.sizeOf_spec]
      omega

theorem obtener_subcarpeta_sizeOf {c sub : Carpeta} {p : String}
    (h : c.obtener_subcarpeta p = some sub) : sizeOf sub < sizeOf c := by
  obtain ⟨n, ms, subs⟩ := c
  have := buscarAsoc_sizeOf subs p sub h
  simp only [Carpeta.mk.sizeOf_spec]
  omega

theorem desciende_sizeOf :
    ∀ {c0 c : Carpeta} {partes : List String}, Desciende c0 partes c →
      partes = [] ∧ c = c0 ∨ sizeOf c < sizeOf c0 := by
  intro c0 c partes h
  induction h with
  | nil => exact .inl ⟨rfl, rfl⟩
  | cons hsub _ ih =>
    right
    rcases ih with ⟨-, rfl⟩ | hlt
    · exact obtener_subcarpeta_sizeOf hsub
    · exact hlt.trans (obtener_subcarpeta_sizeOf hsub)

theorem splitSlash_ne_nil : ∀ l : List Char, splitSlash l ≠ []
  | [] => by rw [splitSlash]; simp
  | c :: rest => by
    rw [splitSlash]
    split
    · simp
    · split
      · simp
      · simp

theorem stripSlashes_solo_barras {s : String} (h : ∀ ch ∈ s.data, ch = '/') :
    stripSlashes s = "" := by
  have hdrop : s.data.dropWhile (· = '/') = [] := by
    rw [List.dropWhile_eq_nil_iff]
    intro x hx
    simp [h x hx]
  simp [stripSlashes, hdrop]

/-- C10: `obtener_por_ruta` never returns the root folder itself (every
successful walk descends at least one level, since the split route always
holds at least one segment); and on the empty route or any route made only
of slashes, the stripped-and-split route is the single empty segment, which
is looked up as a child name and fails naming the empty string — the
pre-created tree of a fresh user indeed has no child named `""`. -/
theorem c10_ruta_no_raiz (sist : SistemaCorreo) (ruta : String) :
    (∀ c, sist.obtener_por_ruta ruta = .ok c → c ≠ sist.carpeta_raiz) ∧
    ((∀ ch ∈ ruta.data, ch = '/') →
      sist.carpeta_raiz.obtener_subcarpeta "" = none →
      sist.obtener_por_ruta ruta = .error (.noExisteCarpeta "" ruta)) ∧
    sistemaDemo.carpeta_raiz.obtener_subcarpeta "" = none := by
  refine ⟨?_, ?_, rfl⟩
  · intro c hok
    have hdesc := (caminarRuta_ok_iff ruta (partesDeRuta ruta) sist.carpeta_raiz c).mp hok
    rcases desciende_sizeOf hdesc with ⟨hnil, -⟩ | hlt
    · exact absurd hnil (splitSlash_ne_nil (stripSlashes ruta).data)
    · intro hc
      rw [hc] at hlt
      omega
  · intro hsolo hvacia
    have hpartes : partesDeRuta ruta = [""] := by
      rw [partesDeRuta, stripSlashes_solo_barras hsolo]
      rfl
    rw [SistemaCorreo.obtener_por_ruta, hpartes, caminarRuta, hvacia]

/-- C10 witness: at the fresh-user tree, resolving `"Entrada"` returns a
non-root folder, and the all-slash routes `""` and `"///"` fail naming the
empty segment. -/
theorem c10_ruta_no_raiz_witness :
    Carpeta.mk "Entrada" [] [] ≠ sistemaDemo.carpeta_raiz ∧
    sistemaDemo.obtener_por_ruta "" = .error (.noExisteCarpeta "" "") ∧
    sistemaDemo.obtener_por_ruta "///" = .error (.noExisteCarpeta "" "///") := by
  refine ⟨?_, ?_, ?_⟩
  · exact (c10_ruta_no_raiz sistemaDemo "Entrada").1 _ rfl
  · exact (c10_ruta_no_raiz sistemaDemo "").2.1 (by decide) rfl
  · exact (c10_ruta_no_raiz sistemaDemo "///").2.1 (by decide) rfl

/-! ## C8

`Carpeta.mensajes` is `return list(self._mensajes)`: it allocates a *new*
list object copying the internal one.  To state the aliasing content of that
line we model the Python heap of list objects explicitly: references are
indices into a store of lists, a folder holds the reference of its internal
list, and the accessor allocates a fresh reference. -/

/-- The store of Python list objects. -/
structure AlmacenListas where
  listas : List (List Mensaje)

/-- Dereference (reads of dangling references yield `[]`; the theorems only
read valid references). -/
def AlmacenListas.leer (st : AlmacenListas) (ref : Nat) : List Mensaje :=
  st.listas.getD ref []

/-- In-place mutation of the list object behind `ref` (any combination of
`append` / `remove` / reordering is some function of the old contents). -/
def AlmacenListas.escribir (st : AlmacenListas) (ref : Nat) (l : List Mensaje) :
    AlmacenListas :=
  ⟨st.listas.set ref l⟩

/-- A folder as seen by this model: the reference of `self._mensajes`. -/
structure CarpetaRef where
  mensajesRef : Nat

/-- `Carpeta.mensajes()`: allocate a fresh list object holding a copy of the
internal contents and hand its reference out. -/
def mensajesSnapshot (st : AlmacenListas) (c : CarpetaRef) : Nat × AlmacenListas :=
  (st.listas.length, ⟨st.listas ++ [st.leer c.mensajesRef]⟩)

theorem getD_set_ne :
    ∀ (xs : List (List Mensaje)) (r i : Nat) (l : List Mensaje), r ≠ i →
      (xs.set r l).getD i [] = xs.getD i []
  | [], _, _, _, _ => rfl
  | _ :: _, 0, 0, _, h => absurd rfl h
  | _ :: _, 0, _ + 1, _, _ => rfl
  | _ :: _, _ + 1, 0, _, _ => rfl
  | _ :: xs, r + 1, i + 1, l, h => getD_set_ne xs r i l (by omega)

theorem getD_append_lt :
    ∀ (xs ys : List (List Mensaje)) (i : Nat), i < xs.length →
      (xs ++ ys).getD i [] = xs.getD i []
  | [], _, i, h => absurd h (by simp)
  | _ :: _, _, 0, _ => rfl
  | _ :: xs, ys, i + 1, h => getD_append_lt xs ys i (by simpa using h)

theorem getD_append_len :
    ∀ (xs : List (List Mensaje)) (y : List Mensaje), (xs ++ [y]).getD xs.length [] = y
  | [], _ => rfl
  | _ :: xs, y => getD_append_len xs y

/-- C8: `mensajes()` hands out a snapshot: the fresh reference holds the
folder's contents; after mutating the snapshot object arbitrarily (`f`), the
folder's internal list is unchanged, and a second `mensajes()` call still
returns the original contents. -/
theorem c8_mensajes_snapshot (st : AlmacenListas) (c : CarpetaRef)
    (h : c.mensajesRef < st.listas.length) (f : List Mensaje → List Mensaje) :
    (mensajesSnapshot st c).2.leer (mensajesSnapshot st c).1 = st.leer c.mensajesRef ∧
    ((mensajesSnapshot st c).2.escribir (mensajesSnapshot st c).1
        (f ((mensajesSnapshot st c).2.leer (mensajesSnapshot st c).1))).leer c.mensajesRef
      = st.leer c.mensajesRef ∧
    (mensajesSnapshot
        ((mensajesSnapshot st c).2.escribir (mensajesSnapshot st c).1
          (f (st.leer c.mensajesRef))) c).2.leer
      (mensajesSnapshot
        ((mensajesSnapshot st c).2.escribir (mensajesSnapshot st c).1
          (f (st.leer c.mensajesRef))) c).1
      = st.leer c.mensajesRef := by
  have hfresh : (mensajesSnapshot st c).2.leer (mensajesSnapshot st c).1 =
      st.leer c.mensajesRef := by
    simp only [mensajesSnapshot, AlmacenListas.leer]
    exact getD_append_len st.listas (st.listas.getD c.mensajesRef [])
  have hframe : ∀ l : List Mensaje,
      ((mensajesSnapshot st c).2.escribir (mensajesSnapshot st c).1 l).leer c.mensajesRef
        = st.leer c.mensajesRef := by
    intro l
    simp only [mensajesSnapshot, AlmacenListas.escribir, AlmacenListas.leer]
    rw [getD_set_ne _ _ _ _ (by omega)]
    exact getD_append_lt st.listas _ c.mensajesRef h
  refine ⟨hfresh, hframe _, ?_⟩
  simp only [mensajesSnapshot, AlmacenListas.leer] at hframe ⊢
  rw [getD_append_len]
  exact hframe (f (st.leer c.mensajesRef))

/-- C8 witness: one folder with one message; the snapshot is mutated by
prepending a second message, and the folder still holds the original list. -/
theorem c8_mensajes_snapshot_witness :
    (AlmacenListas.mk [[msjAlta1]]).leer 0 = [msjAlta1] ∧
    ((mensajesSnapshot (AlmacenListas.mk [[msjAlta1]]) (CarpetaRef.mk 0)).2.escribir
        (mensajesSnapshot (AlmacenListas.mk [[msjAlta1]]) (CarpetaRef.mk 0)).1
        (msjAlta2 :: [msjAlta1])).leer 0 = [msjAlta1] := by
  constructor
  · rfl
  · exact (c8_mensajes_snapshot (AlmacenListas.mk [[msjAlta1]]) (CarpetaRef.mk 0)
      (by decide) (fun l => msjAlta2 :: l)).2.1

/-! ## C2 -/

/-- `actualizarUsuario` rewrites exactly the looked-up entry. -/
theorem buscarAsoc_actualizar :
    ∀ (us : List (String × Usuario)) (email : String) (f : Usuario → Usuario)
      (e : String),
      buscarAsoc (actualizarUsuario us email f) e =
        if e = email then (buscarAsoc us e).map f else buscarAsoc us e
  | [], email, f, e => by
    simp [actualizarUsuario, buscarAsoc]
  | (k, u) :: rest, email, f, e => by
    by_cases hk : k = email
    · subst hk
      by_cases he : k = e
      · subst he
        simp [actualizarUsuario, buscarAsoc]
      · have he' : ¬ e = k := fun h => he h.symm
        simp [actualizarUsuario, buscarAsoc, he, he']
    · by_cases he : k = e
      · subst he
        have hk' : ¬ k = email := hk
        simp [actualizarUsuario, buscarAsoc, hk']
      · simp only [actualizarUsuario, if_neg hk, buscarAsoc, if_neg he]
        exact buscarAsoc_actualizar rest email f e

/-- `agregarEnSubLista` rewrites exactly the named child, creating it at the
end when absent. -/
theorem buscarAsoc_agregarEnSub :
    ∀ (l : List (String × Carpeta)) (nombre : String) (m : Mensaje) (e : String),
      buscarAsoc (agregarEnSubLista l nombre m) e =
        if e = nombre then
          some (match buscarAsoc l nombre with
            | some c => c.agregar_mensaje m
            | none => Carpeta.mk nombre [m] [])
        else buscarAsoc l e
  | [], nombre, m, e => by
    have h1 : ∀ x y : String, ¬ x = y → ¬ y = x := fun x y h hyx => h hyx.symm
    by_cases he : e = nombre
    · subst he
      simp [agregarEnSubLista, buscarAsoc]
    · simp [agregarEnSubLista, buscarAsoc, he, h1 e nombre he]
  | (k, c) :: rest, nombre, m, e => by
    have h1 : ∀ x y : String, ¬ x = y → ¬ y = x := fun x y h hyx => h hyx.symm
    by_cases hk : k = nombre
    · subst hk
      by_cases he : e = k
      · subst he
        simp [agregarEnSubLista, buscarAsoc]
      · simp [agregarEnSubLista, buscarAsoc, he, h1 e k he]
    · by_cases he : e = k
      · subst he
        simp [agregarEnSubLista, buscarAsoc, hk]
      · simp only [agregarEnSubLista, if_neg hk, buscarAsoc,
          if_neg (h1 e k he)]
        rw [buscarAsoc_agregarEnSub rest nombre m e]

/-- `Carpeta.agregar_mensaje` appends. -/
theorem mensajes_agregar_mensaje (c : Carpeta) (m : Mensaje) :
    (c.agregar_mensaje m).mensajes = c.mensajes ++ [m] := by
  obtain ⟨n, ms, subs⟩ := c
  rfl

/-- Delivering into a named top-level folder appends to exactly that
folder's messages. -/
theorem mensajesEn_entregarEn (u : Usuario) (nombre : String) (m : Mensaje)
    (carpeta : String) :
    (u.entregarEn nombre m).mensajesEn carpeta =
      u.mensajesEn carpeta ++ (if carpeta = nombre then [m] else []) := by
  obtain ⟨un, ue, r⟩ := u
  obtain ⟨rn, rms, rsubs⟩ := r
  simp only [Usuario.entregarEn, Usuario.mensajesEn, Carpeta.subcarpetas,
    Carpeta.nombre, Carpeta.mensajes]
  rw [buscarAsoc_agregarEnSub]
  by_cases hc : carpeta = nombre
  · subst hc
    rw [if_pos rfl]
    cases hb : buscarAsoc rsubs carpeta with
    | none => simp
    | some c =>
      obtain ⟨cn, cms, csubs⟩ := c
      simp [Carpeta.agregar_mensaje]
  · simp [hc]

theorem entregarEn_email (u : Usuario) (nombre : String) (m : Mensaje) :
    (u.entregarEn nombre m).email = u.email := rfl

theorem entregarEn_nombre (u : Usuario) (nombre : String) (m : Mensaje) :
    (u.entregarEn nombre m).nombre = u.nombre := rfl

/-- After delivery the named folder exists (auto-creation). -/
theorem entregarEn_existe (u : Usuario) (nombre : String) (m : Mensaje) :
    buscarAsoc (u.entregarEn nombre m).raiz.subcarpetas nombre ≠ none := by
  simp only [Usuario.entregarEn, Carpeta.subcarpetas]
  rw [buscarAsoc_agregarEnSub, if_pos rfl]
  split <;> simp

/-- The filter scan picks the first keyword (in insertion order) occurring in
the lowercased `asunto + " " + cuerpo`, defaulting to `"Entrada"`. -/
theorem carpetaDestino_spec (filtros : List (String × String)) (m : Mensaje) :
    (∃ pre palabra carp post,
      filtros = pre ++ (palabra, carp) :: post ∧
      contiene palabra.data (pyLower (m.asunto ++ " " ++ m.cuerpo)).data = true ∧
      (∀ q ∈ pre, contiene q.1.data (pyLower (m.asunto ++ " " ++ m.cuerpo)).data = false) ∧
      carpetaDestino filtros m = carp) ∨
    ((∀ q ∈ filtros, contiene q.1.data (pyLower (m.asunto ++ " " ++ m.cuerpo)).data = false) ∧
      carpetaDestino filtros m = "Entrada") := by
  induction filtros with
  | nil => exact .inr ⟨by simp, rfl⟩
  | cons q rest ih =>
    obtain ⟨palabra, carp⟩ := q
    by_cases h : contiene palabra.data (pyLower (m.asunto ++ " " ++ m.cuerpo)).data = true
    · exact .inl ⟨[], palabra, carp, rest, rfl, h, by simp,
        by simp [carpetaDestino, carpetaDestino.go, h]⟩
    · have hgo : carpetaDestino ((palabra, carp) :: rest) m = carpetaDestino rest m := by
        simp only [carpetaDestino, carpetaDestino.go]
        rw [if_neg (by simpa using h)]
      rcases ih with ⟨pre, pal, cr, post, hsplit, hc, hpre, hval⟩ | ⟨hall, hval⟩
      · refine .inl ⟨(palabra, carp) :: pre, pal, cr, post, by rw [hsplit]; rfl, hc, ?_, ?_⟩
        · intro x hx
          rcases List.mem_cons.mp hx with hx1 | hx2
          · subst hx1
            simpa using h
          · exact hpre x hx2
        · rw [hgo, hval]
      · refine .inr ⟨?_, by rw [hgo, hval]⟩
        intro x hx
        rcases List.mem_cons.mp hx with hx1 | hx2
        · subst hx1
          simpa using h
        · exact hall x hx2

/-- C2 counterexample: `enviar` can raise even for an unregistered
recipient.  With one `Alta` message already queued, sending a second `Alta`
message whose recipient is unknown to the server propagates the heap
comparison `TypeError` instead of returning normally. -/
theorem c2_enviar_contraejemplo :
    (do
      let s ← (servidorNuevo "Servidor_Local").enviar msjAlta1
      s.enviar msjAlta2) = Except.error ErrorSist.typeErrorMensajeLt ∧
    buscarAsoc (servidorNuevo "Servidor_Local").usuarios msjAlta2.destinatario = none := by
  exact ⟨rfl, rfl⟩

/-- C2 (amended): provided the priority-queue push does not raise the
equal-priority comparison `TypeError` (see C1), `enviar` performs exactly the
claimed steps: (1) a registered sender gets the same message appended to its
`Enviados` folder; (2) the message is pushed onto the server's priority
queue; (3) a registered recipient gets the message appended to the folder
named by the first filter keyword occurring in the lowercased
`asunto + " " + cuerpo` (scanned in insertion order, defaulting to
`Entrada`), that folder being auto-created if absent; (4) an unregistered
recipient is silently skipped and `enviar` returns normally, touching no
other user. -/
theorem c2_enviar (srv : ServidorCorreo) (m : Mensaje) (cola2 : ColaPrioridades)
    (hq : srv.cola.agregar m = .ok cola2) :
    (∃ srv', srv.enviar m = .ok srv' ∧
      srv'.nombre = srv.nombre ∧
      srv'.filtros = srv.filtros ∧
      srv'.cola = cola2 ∧
      (∀ e, buscarAsoc srv.usuarios e = none → buscarAsoc srv'.usuarios e = none) ∧
      (∀ e u, buscarAsoc srv.usuarios e = some u →
        ∃ u', buscarAsoc srv'.usuarios e = some u' ∧
          u'.email = u.email ∧ u'.nombre = u.nombre ∧
          (∀ carpeta, u'.mensajesEn carpeta =
            (u.mensajesEn carpeta ++
              (if e = m.remitente ∧ carpeta = "Enviados" then [m] else [])) ++
              (if e = m.destinatario ∧ carpeta = carpetaDestino srv.filtros m
                then [m] else [])) ∧
          (e = m.destinatario →
            buscarAsoc u'.raiz.subcarpetas (carpetaDestino srv.filtros m) ≠ none))) ∧
    ((∃ pre palabra carp post,
      srv.filtros = pre ++ (palabra, carp) :: post ∧
      contiene palabra.data (pyLower (m.asunto ++ " " ++ m.cuerpo)).data = true ∧
      (∀ q ∈ pre, contiene q.1.data (pyLower (m.asunto ++ " " ++ m.cuerpo)).data = false) ∧
      carpetaDestino srv.filtros m = carp) ∨
    ((∀ q ∈ srv.filtros, contiene q.1.data (pyLower (m.asunto ++ " " ++ m.cuerpo)).data = false) ∧
      carpetaDestino srv.filtros m = "Entrada")) := by
  refine ⟨?_, carpetaDestino_spec srv.filtros m⟩
  set fEnv : Usuario → Usuario := fun u => u.entregarEn "Enviados" m with hfEnv
  set fDest : Usuario → Usuario :=
    fun u => u.entregarEn (carpetaDestino srv.filtros m) m with hfDest
  set us1 : List (String × Usuario) :=
    match buscarAsoc srv.usuarios m.remitente with
    | some _ => actualizarUsuario srv.usuarios m.remitente fEnv
    | none => srv.usuarios with hus1
  set us2 : List (String × Usuario) :=
    match buscarAsoc us1 m.destinatario with
    | some _ => actualizarUsuario us1 m.destinatario fDest
    | none => us1 with hus2
  have henv : srv.enviar m = .ok { srv with usuarios := us2, cola := cola2 } := by
    rw [ServidorCorreo.enviar, hus2, hus1, hfEnv, hfDest, hq]
    rfl
  have h1 : ∀ e, buscarAsoc us1 e =
      if e = m.remitente then (buscarAsoc srv.usuarios e).map fEnv
      else buscarAsoc srv.usuarios e := by
    intro e
    rw [hus1]
    cases hrem : buscarAsoc srv.usuarios m.remitente with
    | some ur =>
      rw [buscarAsoc_actualizar]
    | none =>
      by_cases he : e = m.remitente
      · subst he
        simp [hrem]
      · simp [he]
  have h2 : ∀ e, buscarAsoc us2 e =
      if e = m.destinatario then (buscarAsoc us1 e).map fDest
      else buscarAsoc us1 e := by
    intro e
    rw [hus2]
    cases hdest : buscarAsoc us1 m.destinatario with
    | some ud =>
      rw [buscarAsoc_actualizar]
    | none =>
      by_cases he : e = m.destinatario
      · subst he
        simp [hdest]
      · simp [he]
  refine ⟨_, henv, rfl, rfl, rfl, ?_, ?_⟩
  · intro e hnone
    show buscarAsoc us2 e = none
    rw [h2, h1, hnone]
    split <;> split <;> simp
  · intro e u hsome
    show ∃ u', buscarAsoc us2 e = some u' ∧ _
    rw [h2, h1, hsome]
    by_cases he1 : e = m.remitente <;> by_cases he2 : e = m.destinatario
    · have hrd : m.remitente = m.destinatario := he1.symm.trans he2
      refine ⟨fDest (fEnv u), ?_, rfl, rfl, ?_, ?_⟩
      · rw [if_pos he2, if_pos he1]
        rfl
      · intro carpeta
        rw [hfDest, hfEnv]
        show ((u.entregarEn "Enviados" m).entregarEn
          (carpetaDestino srv.filtros m) m).mensajesEn carpeta = _
        rw [mensajesEn_entregarEn, mensajesEn_entregarEn]
        simp [he1, hrd]
      · intro _
        exact entregarEn_existe _ _ _
    · have hrd : ¬ m.remitente = m.destinatario := fun h => he2 (he1.trans h)
      refine ⟨fEnv u, ?_, rfl, rfl, ?_, ?_⟩
      · rw [if_neg he2, if_pos he1]
        rfl
      · intro carpeta
        rw [hfEnv]
        show (u.entregarEn "Enviados" m).mensajesEn carpeta = _
        rw [mensajesEn_entregarEn]
        simp [he1, hrd]
      · intro h
        exact absurd h he2
    · have hdr : ¬ m.destinatario = m.remitente := fun h => he1 (he2.trans h)
      refine ⟨fDest u, ?_, rfl, rfl, ?_, ?_⟩
      · rw [if_pos he2, if_neg he1]
        rfl
      · intro carpeta
        rw [hfDest]
        show (u.entregarEn (carpetaDestino srv.filtros m) m).mensajesEn carpeta = _
        rw [mensajesEn_entregarEn]
        simp [he2, hdr]
      · intro _
        exact entregarEn_existe _ _ _
    · refine ⟨u, ?_, rfl, rfl, ?_, ?_⟩
      · rw [if_neg he2, if_neg he1]
      · intro carpeta
        simp [he1, he2]
      · intro h
        exact absurd h he2

/-- A server with two registered users, for the concrete send. -/
def srvDemo : ServidorCorreo :=
  ⟨"Servidor_Local",
    [("luis@a.com", usuarioNuevo "Luis" "luis@a.com"),
     ("ana@b.com", usuarioNuevo "Ana" "ana@b.com")],
    [("urgente", "Prioritarios"), ("oferta", "Promociones"), ("universidad", "Academicos")],
    colaNueva⟩

/-- C2 witness: a concrete send from `luis@a.com` to `ana@b.com` whose
subject contains `URGENTE`; the push succeeds and the recipient's
`Prioritarios` folder receives the message. -/
theorem c2_enviar_witness :
    ∃ srv', srvDemo.enviar msjUrgente = .ok srv' ∧
      srv'.cola = ColaPrioridades.mk [(1, msjUrgente)] ∧
      ∃ u', buscarAsoc srv'.usuarios "ana@b.com" = some u' ∧
        u'.mensajesEn "Prioritarios" =
          (((usuarioNuevo "Ana" "ana@b.com").mensajesEn "Prioritarios" ++ []) ++
            [msjUrgente]) := by
  obtain ⟨s, hok, -, -, hcola, -, husers⟩ :=
    (c2_enviar srvDemo msjUrgente (ColaPrioridades.mk [(1, msjUrgente)]) rfl).1
  obtain ⟨u', hu', -, -, hmsgs, -⟩ :=
    husers "ana@b.com" (usuarioNuevo "Ana" "ana@b.com") rfl
  refine ⟨s, hok, hcola, u', hu', ?_⟩
  have := hmsgs "Prioritarios"
  rw [this]
  rfl

/-! ## C4 and C9: correctness of `RedServidores.bfs` -/

/-- Adjacency step of the network: `b` occurs in `a`'s neighbour list. -/
def Arista (cx : List (String × List String)) (a b : String) : Prop :=
  b ∈ vecinos cx a

/-- `p` is a path of the network from `o` to `d`: nonempty, starts at `o`,
ends at `d`, and every consecutive pair is an edge. -/
def CaminoValido (cx : List (String × List String)) (o d : String)
    (p : List String) : Prop :=
  p.head? = some o ∧ p.getLast? = some d ∧ List.Chain' (Arista cx) p

/-- Reachability: some valid path exists. -/
def Alcanzable (cx : List (String × List String)) (o d : String) : Prop :=
  ∃ p, CaminoValido cx o d p

theorem caminoValido_ne_nil {cx : List (String × List String)} {o d : String}
    {p : List String} (h : CaminoValido cx o d p) : p ≠ [] := by
  intro hnil
  rw [hnil] at h
  exact absurd h.1 (by simp)

/-- Among the valid paths from `o` to `d` there is one of minimum length. -/
theorem existe_camino_minimo {cx : List (String × List String)} {o d : String}
    (h : Alcanzable cx o d) :
    ∃ p, CaminoValido cx o d p ∧ ∀ q, CaminoValido cx o d q → p.length ≤ q.length := by
  obtain ⟨p, hp⟩ := h
  generalize hn : p.length = n
  induction n using Nat.strong_induction_on generalizing p with
  | _ n ih =>
    by_cases hmin : ∀ q, CaminoValido cx o d q → p.length ≤ q.length
    · exact ⟨p, hp, hmin⟩
    · push_neg at hmin
      obtain ⟨q, hq, hlt⟩ := hmin
      exact ih q.length (by omega) q hq rfl

/-- Split a list at the *last* occurrence of an element. -/
theorem split_ultima_aparicion {a : String} :
    ∀ {r : List String}, a ∈ r → ∃ s t, r = s ++ a :: t ∧ a ∉ t := by
  intro r
  induction r with
  | nil => intro h; cases h
  | cons x rest ih =>
    intro hmem
    by_cases hr : a ∈ rest
    · obtain ⟨s, t, hst, hnt⟩ := ih hr
      exact ⟨x :: s, t, by rw [hst]; rfl, hnt⟩
    · have hx : a = x := by
        rcases List.mem_cons.mp hmem with h | h
        · exact h
        · exact absurd h hr
      exact ⟨[], rest, by rw [hx]; rfl, hr⟩

/-- The adjacency mass still expandable: total neighbour-list length over the
entries whose key is unvisited. -/
def masaNoVisitada : List (String × List String) → List String → Nat
  | [], _ => 0
  | (k, l) :: rest, V => (if k ∈ V then 0 else l.length) + masaNoVisitada rest V

/-- The BFS loop variant. -/
def potencialBfs (cx : List (String × List String)) (V : List String)
    (Q : List (String × List String)) : Nat :=
  Q.length + masaNoVisitada cx V

theorem masaNoVisitada_mono (cx : List (String × List String)) {V V' : List String}
    (h : ∀ x ∈ V, x ∈ V') : masaNoVisitada cx V' ≤ masaNoVisitada cx V := by
  induction cx with
  | nil => exact le_refl _
  | cons kv rest ih =>
    obtain ⟨k, l⟩ := kv
    rw [masaNoVisitada, masaNoVisitada]
    by_cases h1 : k ∈ V
    · have h2 : k ∈ V' := h _ h1
      rw [if_pos h1, if_pos h2]
      omega
    · rw [if_neg h1]
      by_cases h2 : k ∈ V'
      · rw [if_pos h2]
        omega
      · rw [if_neg h2]
        omega

theorem masaNoVisitada_expandir (cx : List (String × List String)) {V : List String}
    {a : String} (ha : ¬ a ∈ V) :
    masaNoVisitada cx (a :: V) + (vecinos cx a).length ≤ masaNoVisitada cx V := by
  induction cx with
  | nil =>
    simp [masaNoVisitada, vecinos, buscarAsoc]
  | cons kv rest ih =>
    obtain ⟨k, l⟩ := kv
    rw [masaNoVisitada, masaNoVisitada]
    by_cases hk : k = a
    · subst hk
      have hvk : vecinos ((k, l) :: rest) k = l := by
        simp [vecinos, buscarAsoc]
      have hmono : masaNoVisitada rest (k :: V) ≤ masaNoVisitada rest V :=
        masaNoVisitada_mono rest (fun x hx => List.mem_cons_of_mem _ hx)
      rw [hvk, if_pos (List.mem_cons_self k V), if_neg ha]
      omega
    · have hvk : vecinos ((k, l) :: rest) a = vecinos rest a := by
        simp [vecinos, buscarAsoc, hk]
      have hk2 : k ∈ a :: V ↔ k ∈ V := by
        constructor
        · intro hc
          rcases List.mem_cons.mp hc with hc1 | hc2
          · exact absurd hc1 hk
          · exact hc2
        · exact List.mem_cons_of_mem _
      rw [hvk]
      by_cases h1 : k ∈ V
      · rw [if_pos h1, if_pos (hk2.mpr h1)]
        omega
      · rw [if_neg h1, if_neg (fun hc => h1 (hk2.mp hc))]
        omega

/-- With fuel above the variant, the BFS loop terminates (returns a Python
value rather than running out). -/
theorem bfsAux_termina (cx : List (String × List String)) (destino : String) :
    ∀ (fuel : Nat) (V : List String) (Q : List (String × List String)),
      potencialBfs cx V Q < fuel → (bfsAux cx destino fuel V Q).isSome = true := by
  intro fuel
  induction fuel with
  | zero => intro V Q h; exact absurd h (by omega)
  | succ fuel ih =>
    intro V Q h
    match Q with
    | [] => simp [bfsAux]
    | (actual, camino) :: resto =>
      rw [bfsAux]
      by_cases hdest : actual = destino
      · simp [hdest]
      · rw [if_neg hdest]
        by_cases hv : actual ∈ V
        · rw [if_pos hv]
          apply ih
          simp only [potencialBfs, List.length_cons] at h ⊢
          omega
        · rw [if_neg hv]
          apply ih
          have hexp := masaNoVisitada_expandir cx (V := V) (a := actual) hv
          have hfil : (((vecinos cx actual).filter
              (fun v => ¬ v ∈ actual :: V)).map
                (fun v => (v, camino ++ [v]))).length ≤ (vecinos cx actual).length := by
            rw [List.length_map]
            exact List.length_filter_le _ _
          simp only [potencialBfs, List.length_append, List.length_cons] at h ⊢
          omega

/-- Every queued entry carries a valid path from the origin to its node. -/
def ColaValida (cx : List (String × List String)) (origen : String)
    (Q : List (String × List String)) : Prop :=
  ∀ e ∈ Q, CaminoValido cx origen e.1 e.2

/-- FIFO discipline: queued path lengths are non-decreasing and span at most
two consecutive values. -/
def ColaOrdenada (Q : List (String × List String)) : Prop :=
  List.Pairwise (fun e f => e.2.length ≤ f.2.length) Q ∧
  ∀ f, Q.head? = some f → ∀ e ∈ Q, e.2.length ≤ f.2.length + 1

/-- Budget invariant: every reachable unvisited node `w` can still be reached
within the length of any valid origin-to-`w` path, starting from some queued
entry and moving only through unvisited nodes. -/
def PresupuestoOk (cx : List (String × List String)) (origen : String)
    (V : List String) (Q : List (String × List String)) : Prop :=
  ∀ w, Alcanzable cx origen w → ¬ w ∈ V →
    ∃ e ∈ Q, ¬ e.1 ∈ V ∧ ∃ r, r.head? = some e.1 ∧ r.getLast? = some w ∧
      List.Chain' (Arista cx) r ∧ (∀ x ∈ r, ¬ x ∈ V) ∧
      ∀ q, CaminoValido cx origen w q → e.2.length + r.length ≤ q.length + 1

/-- The full loop invariant of `bfsAux`. -/
def InvBfs (cx : List (String × List String)) (origen destino : String)
    (V : List String) (Q : List (String × List String)) : Prop :=
  ColaValida cx origen Q ∧ ColaOrdenada Q ∧ PresupuestoOk cx origen V Q ∧
    ¬ destino ∈ V

theorem frente_minimo {f : String × List String} {resto : List (String × List String)}
    (hord : List.Pairwise (fun e f => e.2.length ≤ f.2.length) (f :: resto))
    {e : String × List String} (he : e ∈ f :: resto) :
    f.2.length ≤ e.2.length := by
  rcases List.mem_cons.mp he with h | h
  · rw [h]
  · exact (List.pairwise_cons.mp hord).1 e h

theorem ordenada_tail {f : String × List String} {resto : List (String × List String)}
    (h : ColaOrdenada (f :: resto)) : ColaOrdenada resto := by
  obtain ⟨hp, hb⟩ := h
  refine ⟨(List.pairwise_cons.mp hp).2, ?_⟩
  intro g hg e he
  have h1 : e.2.length ≤ f.2.length + 1 :=
    hb f rfl e (List.mem_cons_of_mem _ he)
  have h2 : f.2.length ≤ g.2.length := by
    cases resto with
    | nil => cases hg
    | cons g' resto' =>
      have hgg : g' = g := by
        simpa using hg
      subst hgg
      exact frente_minimo hp (List.mem_cons_of_mem _ (List.mem_cons_self _ _))
  omega

theorem ordenada_expandir {actual : String} {camino : List String}
    {resto nuevos : List (String × List String)}
    (h : ColaOrdenada ((actual, camino) :: resto))
    (hlen : ∀ e ∈ nuevos, e.2.length = camino.length + 1) :
    ColaOrdenada (resto ++ nuevos) := by
  obtain ⟨hp, hb⟩ := h
  have hfront : ∀ e ∈ resto, camino.length ≤ e.2.length := by
    intro e he
    exact frente_minimo hp (List.mem_cons_of_mem _ he)
  have hbound : ∀ e ∈ resto, e.2.length ≤ camino.length + 1 := by
    intro e he
    exact hb (actual, camino) rfl e (List.mem_cons_of_mem _ he)
  refine ⟨?_, ?_⟩
  · rw [List.pairwise_append]
    refine ⟨(List.pairwise_cons.mp hp).2, ?_, ?_⟩
    · exact List.Pairwise.imp (fun {a b} h => le_of_eq h)
        (List.pairwise_of_forall_mem_list (fun a ha b hb => by
          rw [hlen a ha, hlen b hb]))
    · intro a ha b hb2
      rw [hlen b hb2]
      exact hbound a ha
  · intro g hg e he
    rcases List.mem_append.mp he with he1 | he2
    · have h1 := hbound e he1
      cases resto with
      | nil => cases he1
      | cons g' resto' =>
        have hgg : g' = g := by simpa using hg
        subst hgg
        have := hfront g' (List.mem_cons_self _ _)
        omega
    · have h1 := hlen e he2
      cases resto with
      | nil =>
        have hgn : g ∈ nuevos := by
          cases hnu : nuevos with
          | nil => rw [hnu] at hg; cases hg
          | cons n ns =>
            rw [hnu] at hg
            simp at hg
            exact hg ▸ List.mem_cons_self n ns
        rw [hlen g hgn]
        omega
      | cons g' resto' =>
        have hgg : g' = g := by simpa using hg
        subst hgg
        have := hfront g' (List.mem_cons_self _ _)
        omega

/-- Main loop lemma: from any state satisfying the invariant, a terminating
run of `bfsAux` returns a *shortest* valid path when the destination is
reachable, and `none` exactly when it is not. -/
theorem bfsAux_correcto (cx : List (String × List String)) (origen destino : String) :
    ∀ (fuel : Nat) (V : List String) (Q : List (String × List String)),
      InvBfs cx origen destino V Q →
      ∀ res, bfsAux cx destino fuel V Q = some res →
        (∀ p, res = some p → CaminoValido cx origen destino p ∧
          ∀ q, CaminoValido cx origen destino q → p.length ≤ q.length) ∧
        (res = none → ¬ Alcanzable cx origen destino) := by
  intro fuel
  induction fuel with
  | zero =>
    intro V Q hinv res hres
    rw [bfsAux] at hres
    cases hres
  | succ fuel ih =>
    intro V Q hinv res hres
    obtain ⟨hval, hord, hbud, hdestV⟩ := hinv
    match Q with
    | [] =>
      rw [bfsAux] at hres
      injection hres with hres
      subst hres
      refine ⟨fun p hp => (nomatch hp), fun _ halc => ?_⟩
      obtain ⟨e, he, -⟩ := hbud destino halc hdestV
      cases he
    | (actual, camino) :: resto =>
      rw [bfsAux] at hres
      by_cases hdest : actual = destino
      · rw [if_pos hdest] at hres
        injection hres with hres
        subst hres
        refine ⟨fun p hp => ?_, fun h => by cases h⟩
        injection hp with hp
        subst hp
        have hvalid : CaminoValido cx origen destino camino := by
          have := hval (actual, camino) (List.mem_cons_self _ _)
          rwa [hdest] at this
        refine ⟨hvalid, fun q hq => ?_⟩
        obtain ⟨e, heQ, -, r, hr1, -, -, -, hbudget⟩ :=
          hbud destino ⟨camino, hvalid⟩ hdestV
        have hrne : r ≠ [] := by
          intro h0
          rw [h0] at hr1
          cases hr1
        have hr_len : 1 ≤ r.length := by
          cases r with
          | nil => exact absurd rfl hrne
          | cons a t => simp
        have hfr : camino.length ≤ e.2.length := frente_minimo hord.1 heQ
        have := hbudget q hq
        omega
      · rw [if_neg hdest] at hres
        by_cases hvis : actual ∈ V
        · rw [if_pos hvis] at hres
          refine ih V resto ⟨?_, ordenada_tail ⟨hord.1, hord.2⟩, ?_, hdestV⟩ res hres
          · exact fun e he => hval e (List.mem_cons_of_mem _ he)
          · intro w halc hw
            obtain ⟨e, heQ, heV, resto_t⟩ := hbud w halc hw
            refine ⟨e, ?_, heV, resto_t⟩
            rcases List.mem_cons.mp heQ with h | h
            · rw [h] at heV
              exact absurd hvis heV
            · exact h
        · rw [if_neg hvis] at hres
          have hfront : CaminoValido cx origen actual camino :=
            hval _ (List.mem_cons_self _ _)
          have hcamne : camino ≠ [] := caminoValido_ne_nil hfront
          have hnuevos_len : ∀ e ∈ ((vecinos cx actual).filter
              (fun v => ¬ v ∈ actual :: V)).map (fun v => (v, camino ++ [v])),
              e.2.length = camino.length + 1 := by
            intro e he
            obtain ⟨v, -, rfl⟩ := List.mem_map.mp he
            simp
          have hnuevos_val : ∀ e ∈ ((vecinos cx actual).filter
              (fun v => ¬ v ∈ actual :: V)).map (fun v => (v, camino ++ [v])),
              CaminoValido cx origen e.1 e.2 := by
            intro e he
            obtain ⟨v, hv, rfl⟩ := List.mem_map.mp he
            have hvadj : v ∈ vecinos cx actual := (List.mem_filter.mp hv).1
            refine ⟨?_, ?_, ?_⟩
            · rw [List.head?_append_of_ne_nil _ hcamne]
              exact hfront.1
            · exact List.getLast?_concat _
            · rw [List.chain'_append]
              refine ⟨hfront.2.2, List.chain'_singleton v, ?_⟩
              intro x hx y hy
              rw [hfront.2.1] at hx
              have hx' : actual = x := by simpa using hx
              have hy' : v = y := by simpa using hy
              rw [← hx', ← hy']
              exact hvadj
          refine ih (actual :: V) _
            ⟨?_, ordenada_expandir ⟨hord.1, hord.2⟩ hnuevos_len, ?_, ?_⟩ res hres
          · intro e he
            rcases List.mem_append.mp he with h | h
            · exact hval e (List.mem_cons_of_mem _ h)
            · exact hnuevos_val e h
          · intro w halc hw
            have hwa : w ≠ actual := by
              intro h0
              exact hw (h0 ▸ List.mem_cons_self _ _)
            have hwV : ¬ w ∈ V := fun h0 => hw (List.mem_cons_of_mem _ h0)
            obtain ⟨e, heQ, heV, r, hr_head, hr_last, hr_chain, hr_avoid, hbudget⟩ :=
              hbud w halc hwV
            by_cases har : actual ∈ r
            · obtain ⟨s, t, hst, hat⟩ := split_ultima_aparicion har
              have ht_ne : t ≠ [] := by
                intro h0
                rw [h0] at hst
                rw [hst] at hr_last
                rw [List.getLast?_concat] at hr_last
                injection hr_last with h1
                exact hwa h1.symm
              obtain ⟨b, t', rfl⟩ : ∃ b t', t = b :: t' := by
                cases t with
                | nil => exact absurd rfl ht_ne
                | cons b t' => exact ⟨b, t', rfl⟩
              have hchain_sfx : List.Chain' (Arista cx) (actual :: b :: t') := by
                rw [hst] at hr_chain
                exact hr_chain.right_of_append
              have hab : Arista cx actual b := by
                have := List.chain'_cons.mp hchain_sfx
                exact this.1
              have hchain_t : List.Chain' (Arista cx) (b :: t') :=
                (List.chain'_cons.mp hchain_sfx).2
              have hbr : b ∈ r := by
                rw [hst]
                exact List.mem_append_right _ (List.mem_cons_of_mem _
                  (List.mem_cons_self _ _))
              have hbV : ¬ b ∈ V := hr_avoid b hbr
              have hba : b ≠ actual := by
                intro h0
                exact hat (h0 ▸ List.mem_cons_self b t')
              have hbfil : b ∈ (vecinos cx actual).filter
                  (fun v => ¬ v ∈ actual :: V) := by
                rw [List.mem_filter]
                refine ⟨hab, ?_⟩
                simp only [decide_eq_true_eq]
                intro h0
                rcases List.mem_cons.mp h0 with h1 | h1
                · exact hba h1
                · exact hbV h1
              have hmem : (b, camino ++ [b]) ∈ ((vecinos cx actual).filter
                  (fun v => ¬ v ∈ actual :: V)).map (fun v => (v, camino ++ [v])) :=
                List.mem_map.mpr ⟨b, hbfil, rfl⟩
              have hlast_t : (b :: t').getLast? = some w := by
                rw [hst] at hr_last
                rw [List.getLast?_append_of_ne_nil _ (by simp)] at hr_last
                rw [List.getLast?_cons_cons] at hr_last
                exact hr_last
              refine ⟨(b, camino ++ [b]), List.mem_append_right _ hmem, ?_,
                b :: t', by simp, hlast_t, hchain_t, ?_, ?_⟩
              · intro h0
                rcases List.mem_cons.mp h0 with h1 | h1
                · exact hba h1
                · exact hbV h1
              · intro x hx
                have hxr : x ∈ r := by
                  rw [hst]
                  exact List.mem_append_right _ (List.mem_cons_of_mem _ hx)
                intro h0
                rcases List.mem_cons.mp h0 with h1 | h1
                · exact hat (h1 ▸ hx)
                · exact hr_avoid x hxr h1
              · intro q hq
                have hold := hbudget q hq
                have hfr : camino.length ≤ e.2.length := frente_minimo hord.1 heQ
                have hrl : r.length = s.length + (t'.length + 2) := by
                  rw [hst]
                  simp
                simp only [List.length_append, List.length_cons, List.length_nil]
                omega
            · have heA : e.1 ∈ r := by
                cases r with
                | nil => cases hr_head
                | cons a t =>
                  have : a = e.1 := by simpa using hr_head
                  exact this ▸ List.mem_cons_self _ _
              have hea : e.1 ≠ actual := fun h0 => har (h0 ▸ heA)
              have heresto : e ∈ resto := by
                rcases List.mem_cons.mp heQ with h | h
                · rw [h] at hea
                  exact absurd rfl hea
                · exact h
              refine ⟨e, List.mem_append_left _ heresto, ?_, r, hr_head, hr_last,
                hr_chain, ?_, hbudget⟩
              · intro h0
                rcases List.mem_cons.mp h0 with h1 | h1
                · exact hea h1
                · exact heV h1
              · intro x hx h0
                rcases List.mem_cons.mp h0 with h1 | h1
                · exact har (h1 ▸ hx)
                · exact hr_avoid x hx h1
          · intro h0
            rcases List.mem_cons.mp h0 with h1 | h1
            · exact hdest h1.symm
            · exact hdestV h1

theorem masaNoVisitada_nil : ∀ cx : List (String × List String),
    masaNoVisitada cx [] = totalAristas cx
  | [] => rfl
  | (k, l) :: rest => by
    simp [masaNoVisitada, totalAristas, masaNoVisitada_nil rest]

/-- The invariant holds at the initial BFS state. -/
theorem inv_inicial (cx : List (String × List String)) (origen destino : String) :
    InvBfs cx origen destino [] [(origen, [origen])] := by
  refine ⟨?_, ⟨List.pairwise_singleton _ _, ?_⟩, ?_, by simp⟩
  · intro e he
    have : e = (origen, [origen]) := by simpa using he
    subst this
    exact ⟨rfl, rfl, List.chain'_singleton _⟩
  · intro f hf e he
    have hfe : (origen, [origen]) = f := by simpa using hf
    have hee : e = (origen, [origen]) := by simpa using he
    subst hfe
    subst hee
    omega
  · intro w halc hw
    obtain ⟨p0, hp0, hmin⟩ := existe_camino_minimo halc
    refine ⟨(origen, [origen]), List.mem_singleton.mpr rfl, by simp, p0, hp0.1,
      hp0.2.1, hp0.2.2, fun x _ => by simp, ?_⟩
    intro q hq
    have := hmin q hq
    simp only [List.length_singleton]
    omega

/-- The demo network: servers `A`, `B`, `C`, `D`; edges `A`–`C` and `C`–`B`;
`D` stays disconnected. -/
def redDemo : RedServidores :=
  (((((redNueva.agregar_servidor (servidorNuevo "A")).agregar_servidor
      (servidorNuevo "B")).agregar_servidor (servidorNuevo "C")).agregar_servidor
      (servidorNuevo "D")).conectar "A" "C").conectar "C" "B"

/-- C4: on every network built by `agregar_servidor` / `conectar` (indeed on
every adjacency table) and every pair of names, `bfs` returns a valid path of
minimum edge count from origin to destination when one exists, and `none`
when none exists; concretely, on the graph with edges `A`–`C`, `C`–`B` it
returns `["A", "C", "B"]`, and `bfs` to the disconnected `D` is `none`. -/
theorem c4_bfs (red : RedServidores) (origen destino : String) :
    (∀ p, red.bfs origen destino = some p →
      CaminoValido red.conexiones origen destino p ∧
      ∀ q, CaminoValido red.conexiones origen destino q → p.length ≤ q.length) ∧
    (red.bfs origen destino = none →
      ¬ ∃ p, CaminoValido red.conexiones origen destino p) ∧
    redDemo.bfs "A" "B" = some ["A", "C", "B"] ∧
    redDemo.bfs "A" "D" = none := by
  have hterm := bfsAux_termina red.conexiones destino
    (totalAristas red.conexiones + 2) [] [(origen, [origen])] (by
      simp only [potencialBfs, List.length_singleton, masaNoVisitada_nil]
      omega)
  obtain ⟨res, hres⟩ := Option.isSome_iff_exists.mp hterm
  have hcorr := bfsAux_correcto red.conexiones origen destino
    (totalAristas red.conexiones + 2) [] [(origen, [origen])]
    (inv_inicial red.conexiones origen destino) res hres
  have hb : red.bfs origen destino = res := by
    rw [RedServidores.bfs, hres]
  refine ⟨?_, ?_, rfl, rfl⟩
  · intro p hp
    rw [hb] at hp
    exact hcorr.1 p hp
  · intro hnone
    rw [hb] at hnone
    exact hcorr.2 hnone

/-- Every queued path is nonempty, so `bfs` never returns an empty list. -/
theorem bfsAux_no_vacio (cx : List (String × List String)) (destino : String) :
    ∀ (fuel : Nat) (V : List String) (Q : List (String × List String)),
      (∀ e ∈ Q, e.2 ≠ []) →
      ∀ p, bfsAux cx destino fuel V Q = some (some p) → p ≠ [] := by
  intro fuel
  induction fuel with
  | zero =>
    intro V Q hQ p hp
    rw [bfsAux] at hp
    cases hp
  | succ fuel ih =>
    intro V Q hQ p hp
    match Q with
    | [] =>
      rw [bfsAux] at hp
      injection hp with hp
      cases hp
    | (actual, camino) :: resto =>
      rw [bfsAux] at hp
      by_cases hdest : actual = destino
      · rw [if_pos hdest] at hp
        injection hp with hp
        injection hp with hp
        rw [← hp]
        exact hQ (actual, camino) (List.mem_cons_self _ _)
      · rw [if_neg hdest] at hp
        by_cases hvis : actual ∈ V
        · rw [if_pos hvis] at hp
          exact ih V resto (fun e he => hQ e (List.mem_cons_of_mem _ he)) p hp
        · rw [if_neg hvis] at hp
          refine ih _ _ ?_ p hp
          intro e he
          rcases List.mem_append.mp he with h | h
          · exact hQ e (List.mem_cons_of_mem _ h)
          · obtain ⟨v, -, rfl⟩ := List.mem_map.mp h
            simp

/-- C9: `bfs(s, s)` returns the single-element path `[s]` for every name,
registered or not, because the destination test precedes the visited check;
and `bfs` never returns an empty list. -/
theorem c9_bfs_origen_igual :
    (∀ (red : RedServidores) (s : String), red.bfs s s = some [s]) ∧
    (∀ (red : RedServidores) (origen destino : String) (p : List String),
      red.bfs origen destino = some p → p ≠ []) := by
  constructor
  · intro red s
    rw [RedServidores.bfs]
    have h1 : bfsAux red.conexiones s (totalAristas red.conexiones + 2) []
        [(s, [s])] = some (some [s]) := by
      rw [bfsAux, if_pos rfl]
    rw [h1]
  · intro red o d p hp
    rw [RedServidores.bfs] at hp
    have h2 : bfsAux red.conexiones d (totalAristas red.conexiones + 2) []
        [(o, [o])] = some (some p) := by
      cases h : bfsAux red.conexiones d (totalAristas red.conexiones + 2) []
          [(o, [o])] with
      | none =>
        rw [h] at hp
        cases hp
      | some r =>
        rw [h] at hp
        cases r with
        | none => cases hp
        | some q =>
          injection hp with hp
          rw [hp]
    refine bfsAux_no_vacio red.conexiones d _ [] [(o, [o])] ?_ p h2
    intro e he
    have : e = (o, [o]) := by simpa using he
    rw [this]
    simp

/-- C4 witness: the general theorem applied to the demo network: the returned
`["A", "C", "B"]` is a valid path, and no valid path to `D` exists. -/
theorem c4_bfs_witness :
    CaminoValido redDemo.conexiones "A" "B" ["A", "C", "B"] ∧
    ¬ ∃ p, CaminoValido redDemo.conexiones "A" "D" p := by
  constructor
  · exact ((c4_bfs redDemo "A" "B").1 ["A", "C", "B"] rfl).1
  · exact (c4_bfs redDemo "A" "D").2.1 rfl

/-- C9 witness: `bfs` from `Z` to `Z` on the demo network (where `Z` is not
even a server), and the non-emptiness of a concretely returned path. -/
theorem c9_bfs_origen_igual_witness :
    redDemo.bfs "Z" "Z" = some ["Z"] ∧ (["A", "C", "B"] : List String) ≠ [] := by
  constructor
  · exact c9_bfs_origen_igual.1 redDemo "Z"
  · exact c9_bfs_origen_igual.2 redDemo "A" "B" ["A", "C", "B"] rfl

end SistemaCorreoPy
